import Mathlib

/-
Shallow embedding of the two SpeechBrain recipe scripts:
  recipes/AMI/Diarization/experiment.py
  recipes/minimal_examples/neural_networks/complex_networks/example_complex_asr_ctc_experiment.py

Pure functions of the scripts become Lean functions; file-system effects are
made explicit (the file system is a map from paths to optional contents,
`os.path.isdir` is an abstract predicate); calls into the external SpeechBrain
framework (embedding computation, clustering, DER scoring) are abstracted as
parameters or recorded as events in a trace.
-/

/-- File contents and path suffixes are modelled as lists of characters. -/
abbrev Chars := List Char

/-! ## check_dirs (experiment.py, lines 528-547)

`check_dirs` tests `os.path.isdir` on the three directories `data_folder`,
`manual_annot_folder` and `output_folder`, in that order, and calls
`sys.exit()` on the first missing one.  `isdir` abstracts the directory
predicate of the file system; the result `none` models `sys.exit()`, and a
normal return hands the (unchanged) file system back as `some isdir`. -/

def check_dirs (isdir : String → Bool) (data_folder manual_annot_folder output_folder : String) :
    Option (String → Bool) :=
  if isdir data_folder = false then none
  else if isdir manual_annot_folder = false then none
  else if isdir output_folder = false then none
  else some isdir

/-! ## Clustering dispatch inside diarize_dataset (experiment.py, lines 267-288)

Per recording, `diarize_dataset` runs three independent `if` statements on
`params["backend"]`; `"kmeans"` calls `diar.do_kmeans_clustering`, `"SC"`
calls `diar.do_spec_clustering`, `"AHC"` binds `threshold = pval` and calls
`diar.do_AHC`.  The list of clustering calls made for one recording is
recorded in order. -/

inductive ClusterCall where
  | kmeans (num_spkrs : Option ℕ) (pval : Option ℚ)
  | spec (num_spkrs : Option ℕ) (pval : Option ℚ) (affinity : String) (n_neighbors : ℕ)
  | ahc (num_spkrs : Option ℕ) (threshold : Option ℚ)
deriving DecidableEq

def clusteringCalls (backend : String) (num_spkrs : Option ℕ) (pval : Option ℚ)
    (affinity : String) (n_neighbors : ℕ) : List ClusterCall :=
  (if backend = "kmeans" then [ClusterCall.kmeans num_spkrs pval] else [])
    ++ (if backend = "SC" then [ClusterCall.spec num_spkrs pval affinity n_neighbors] else [])
    ++ (if backend = "AHC" then [ClusterCall.ahc num_spkrs pval] else [])

/-! ## embedding_computation_loop (experiment.py, lines 80-139)

If the pickled statistics file is absent, embeddings are computed (abstracted
as `computed_obj`), pickled, and saved to `stat_file`; otherwise the existing
file is unpickled and returned.  The file system is a map from paths to
optional contents; the returned Bool records whether the embedding
computation was performed. -/

def embedding_computation_loop {α β : Type} (pickle : β → α) (unpickle : α → β)
    (computed_obj : β) (stat_file : String) (fs : String → Option α) :
    β × (String → Option α) × Bool :=
  match fs stat_file with
  | none => (computed_obj, Function.update fs stat_file (some (pickle computed_obj)), true)
  | some c => (unpickle c, fs, false)

/-! ## RTTM concatenation (experiment.py, lines 290-300)

After diarizing all recordings, the per-recording RTTM files matching
`out_rttm_dir + "/*.rttm"` are concatenated into `sys_output.rttm`; the loop
body `if f == concate_rttm_file: continue` skips the output file itself.
The glob result is the list `glob_files`, `contents` gives each file's
contents, and the returned value is what is written to the output file. -/

def concatenateRttm (glob_files : List String) (contents : String → Chars)
    (concate_rttm_file : String) : Chars :=
  match glob_files with
  | [] => []
  | f :: fs =>
      (if f = concate_rttm_file then [] else contents f)
        ++ concatenateRttm fs contents concate_rttm_file

/-! ### Theorems -/

/-- C3: `check_dirs` exits the process (returns `none`) exactly when one of
`data_folder`, `manual_annot_folder`, `output_folder` is not a directory, and
when all three exist it returns normally with the file system unchanged. -/
theorem check_dirs_spec (isdir : String → Bool) (d m o : String) :
    (check_dirs isdir d m o = none ↔ (isdir d = false ∨ isdir m = false ∨ isdir o = false)) ∧
    (isdir d = true → isdir m = true → isdir o = true → check_dirs isdir d m o = some isdir) := by
  constructor
  · unfold check_dirs
    cases hd : isdir d <;> cases hm : isdir m <;> cases ho : isdir o <;> simp
  · intro hd hm ho
    unfold check_dirs
    simp [hd, hm, ho]

theorem check_dirs_spec_witness :
    check_dirs (fun _ => true) "data" "annot" "out" = some (fun _ => true) :=
  (check_dirs_spec (fun _ => true) "data" "annot" "out").2 rfl rfl rfl

/-- C2: the clustering step of `diarize_dataset` is dispatched on the
`backend` hyperparameter: `"kmeans"` calls `do_kmeans_clustering`, `"SC"`
calls `do_spec_clustering`, `"AHC"` calls `do_AHC` with `pval` reused as the
threshold, and no other clustering call is made. -/
theorem clustering_dispatch (backend : String) (num_spkrs : Option ℕ) (pval : Option ℚ)
    (affinity : String) (nn : ℕ) :
    (backend = "kmeans" →
      clusteringCalls backend num_spkrs pval affinity nn = [ClusterCall.kmeans num_spkrs pval]) ∧
    (backend = "SC" →
      clusteringCalls backend num_spkrs pval affinity nn
        = [ClusterCall.spec num_spkrs pval affinity nn]) ∧
    (backend = "AHC" →
      clusteringCalls backend num_spkrs pval affinity nn = [ClusterCall.ahc num_spkrs pval]) ∧
    (backend ≠ "kmeans" → backend ≠ "SC" → backend ≠ "AHC" →
      clusteringCalls backend num_spkrs pval affinity nn = []) := by
  refine ⟨?_, ?_, ?_, ?_⟩
  · intro h; subst h; simp [clusteringCalls]
  · intro h; subst h; simp [clusteringCalls]
  · intro h; subst h; simp [clusteringCalls]
  · intro h1 h2 h3; simp [clusteringCalls, h1, h2, h3]

theorem clustering_dispatch_witness :
    clusteringCalls "AHC" (some 4) (some (1/2)) "cos" 10
      = [ClusterCall.ahc (some 4) (some (1/2))] :=
  (clustering_dispatch "AHC" (some 4) (some (1/2)) "cos" 10).2.2.1 rfl

/-- C8: when the statistics file already exists, `embedding_computation_loop`
performs no embedding computation and returns the unpickled contents with the
whole file system unchanged; only when the file is absent does it compute,
and then it writes the pickled object to exactly that file. -/
theorem embedding_loop_frame {α β : Type} (pickle : β → α) (unpickle : α → β)
    (obj : β) (stat_file : String) (fs : String → Option α) :
    (∀ c, fs stat_file = some c →
      embedding_computation_loop pickle unpickle obj stat_file fs = (unpickle c, fs, false)) ∧
    (fs stat_file = none →
      (embedding_computation_loop pickle unpickle obj stat_file fs).1 = obj ∧
      (embedding_computation_loop pickle unpickle obj stat_file fs).2.2 = true ∧
      (embedding_computation_loop pickle unpickle obj stat_file fs).2.1 stat_file
        = some (pickle obj) ∧
      ∀ p, p ≠ stat_file →
        (embedding_computation_loop pickle unpickle obj stat_file fs).2.1 p = fs p) := by
  constructor
  · intro c hc
    unfold embedding_computation_loop
    rw [hc]
  · intro hn
    unfold embedding_computation_loop
    rw [hn]
    refine ⟨rfl, rfl, ?_, ?_⟩
    · simp [Function.update]
    · intro p hp
      simp [Function.update, hp]

theorem embedding_loop_frame_witness :
    embedding_computation_loop (id : ℕ → ℕ) (id : ℕ → ℕ) 5 "stat.pkl"
        (fun p => if p = "stat.pkl" then some 7 else none)
      = (7, (fun p => if p = "stat.pkl" then some 7 else none), false) :=
  (embedding_loop_frame (id : ℕ → ℕ) (id : ℕ → ℕ) 5 "stat.pkl"
      (fun p => if p = "stat.pkl" then some 7 else none)).1 7 (by simp)

/-- C9: the concatenation loop skips the file whose path equals the
concatenated output file: the result equals the concatenation of the other
globbed files, and it is independent of the (previous-run) contents stored
under the output path. -/
theorem concat_skips_self (glob_files : List String) (contents : String → Chars)
    (out : String) :
    concatenateRttm glob_files contents out
      = concatenateRttm (glob_files.filter (fun f => f ≠ out)) contents out ∧
    ∀ c, concatenateRttm glob_files (Function.update contents out c) out
      = concatenateRttm glob_files contents out := by
  constructor
  · induction glob_files with
    | nil => rfl
    | cons f fs ih =>
        by_cases hf : f = out
        · subst hf
          simp [concatenateRttm, ih]
        · simp [concatenateRttm, hf, ih]
  · intro c
    induction glob_files with
    | nil => rfl
    | cons f fs ih =>
        by_cases hf : f = out
        · subst hf
          simp [concatenateRttm, ih]
        · simp [concatenateRttm, hf, ih, Function.update, hf]

/-! ## The CTC minimal example (example_complex_asr_ctc_experiment.py)

`main()` builds a `CTCBrain`, calls `fit(range(N_epochs), train_data,
valid_data)`, then `evaluate(valid_data)`, and finally asserts
`ctc_brain.train_loss < 0.1`.  The call sequence is recorded as a trace;
the `train_loss` attribute is maintained by `on_stage_end`, which stores the
stage loss when the stage is TRAIN and leaves the state alone otherwise. -/

inductive Stage where
  | TRAIN | VALID | TEST
deriving DecidableEq

structure CTCBrainState where
  train_loss : Option ℚ
deriving DecidableEq

/-- Embeds `CTCBrain.on_stage_end` (lines 30-38): on the TRAIN stage the
stage loss is stored in `self.train_loss`; other stages only print. -/
def on_stage_end (st : CTCBrainState) (stage : Stage) (stage_loss : ℚ) : CTCBrainState :=
  if stage = Stage.TRAIN then { train_loss := some stage_loss } else st

/-- The `(stage, stage_loss)` pairs passed to `on_stage_end` by the framework
calls `fit` and `evaluate`, folded over the initial state (no `train_loss`
attribute yet). -/
def run_stage_ends (events : List (Stage × ℚ)) : CTCBrainState :=
  events.foldl (fun st e => on_stage_end st e.1 e.2) { train_loss := none }

inductive CTCOutcome where
  | ok
  | assertionError
  | attributeError
deriving DecidableEq

/-- Embeds the end of `main()` (lines 67-68): reading `ctc_brain.train_loss`
raises AttributeError when no TRAIN stage ever completed; otherwise
`assert ctc_brain.train_loss < 0.1` raises AssertionError exactly when the
stored loss is not strictly below 0.1. -/
def ctc_main_outcome (events : List (Stage × ℚ)) : CTCOutcome :=
  match (run_stage_ends events).train_loss with
  | none => CTCOutcome.attributeError
  | some l => if l < 1/10 then CTCOutcome.ok else CTCOutcome.assertionError

/-- Call trace of `main()` in the CTC example. -/
inductive CTCEvent where
  | fit (epochs : List ℕ) (train_set valid_set : String)
  | evaluate (test_set : String)
  | assertLoss
deriving DecidableEq

/-- Embeds the call sequence of `main()` (lines 59-68): `fit` over
`range(N_epochs)` on train and valid data, then `evaluate` on valid data,
then the overfitting assert. -/
def ctc_main_events (n_epochs : ℕ) : List CTCEvent :=
  [CTCEvent.fit (List.range n_epochs) "train_data" "valid_data",
   CTCEvent.evaluate "valid_data",
   CTCEvent.assertLoss]

/-- Helper: stages other than TRAIN do not change the brain state. -/
theorem foldl_stage_ends_no_train (post : List (Stage × ℚ)) (st : CTCBrainState)
    (h : ∀ e ∈ post, e.1 ≠ Stage.TRAIN) :
    post.foldl (fun st e => on_stage_end st e.1 e.2) st = st := by
  induction post generalizing st with
  | nil => rfl
  | cons e es ih =>
      have he : e.1 ≠ Stage.TRAIN := h e (List.mem_cons_self e es)
      simp only [List.foldl_cons, on_stage_end, if_neg he]
      exact ih st (fun x hx => h x (List.mem_cons_of_mem e hx))

/-! ### Theorems for the CTC example -/

/-- C7: the CTC example invokes the framework training loop `fit` over
exactly `N_epochs` epochs on the train and valid datasets, and invokes
`evaluate` on the valid dataset only after `fit`, as the next call of the
trace. -/
theorem ctc_fit_then_evaluate (n_epochs : ℕ) :
    ctc_main_events n_epochs
      = CTCEvent.fit (List.range n_epochs) "train_data" "valid_data"
          :: CTCEvent.evaluate "valid_data" :: [CTCEvent.assertLoss] ∧
    (List.range n_epochs).length = n_epochs :=
  ⟨rfl, List.length_range n_epochs⟩

/-- C10: after training and evaluation, `main` raises AssertionError exactly
when the final training-stage loss is not strictly below 0.1, and completes
normally otherwise.  The hypothesis fixes `L` as the loss of the last TRAIN
stage among the `on_stage_end` events. -/
theorem ctc_assert_iff (pre post : List (Stage × ℚ)) (L : ℚ)
    (hpost : ∀ e ∈ post, e.1 ≠ Stage.TRAIN) :
    (ctc_main_outcome (pre ++ (Stage.TRAIN, L) :: post) = CTCOutcome.assertionError
        ↔ ¬ L < 1/10) ∧
    (ctc_main_outcome (pre ++ (Stage.TRAIN, L) :: post) = CTCOutcome.ok ↔ L < 1/10) := by
  have hrun : run_stage_ends (pre ++ (Stage.TRAIN, L) :: post) = { train_loss := some L } := by
    unfold run_stage_ends
    rw [List.foldl_append, List.foldl_cons]
    simp only [on_stage_end, if_pos rfl]
    exact foldl_stage_ends_no_train post _ hpost
  unfold ctc_main_outcome
  rw [hrun]
  by_cases hL : L < 1/10
  · simp [hL]
  · simp [hL]

theorem ctc_assert_iff_witness :
    ctc_main_outcome [(Stage.TRAIN, 1/20), (Stage.TEST, 2)] = CTCOutcome.ok :=
  ((ctc_assert_iff [] [(Stage.TEST, 2)] (1/20) (by decide)).2).mpr (by norm_num)

/-! ## Dev-set tuners (experiment.py, lines 311-419)

Each tuner loops over a grid, reruns `diarize_dataset` on the whole dev set
for the grid value, and appends the DER computed by the external scorer.
The pipeline-plus-scorer composite is abstracted as `der`, a function from
the grid value to the resulting DER.  Inside the loop, `dev_p_tuner` and
`dev_nn_tuner` break after the first iteration when
`oracle_n_spkrs and backend == "kmeans"`, and `dev_threshold_tuner` breaks
when `oracle_n_spkrs`.  `tuner_runs` returns, in order, the grid values the
loop actually ran together with their DERs. -/

def tuner_runs {α : Type} (der : α → ℚ) (early_stop : Bool) : List α → List (α × ℚ)
  | [] => []
  | p :: ps => (p, der p) :: (if early_stop then [] else tuner_runs der early_stop ps)

/-- The p-value grid `np.arange(0.002, 0.015, 0.001)`: the 13 values
0.002, 0.003, ..., 0.014. -/
def prange_p : List ℚ := (List.range 13).map (fun i => ((2 : ℚ) + i) / 1000)

/-- The AHC threshold grid `np.arange(0.0, 1.0, 0.1)`: the 10 values
0.0, 0.1, ..., 0.9. -/
def prange_threshold : List ℚ := (List.range 10).map (fun i => (i : ℚ) / 10)

/-- The neighbour-count grid `range(5, 15)`: 5, 6, ..., 14. -/
def nn_range : List ℕ := (List.range 10).map (fun i => 5 + i)

/-- Python's `min` over a non-empty list. -/
def listMin : List ℚ → ℚ
  | [] => 0
  | x :: xs => xs.foldl min x

/-- Python's `list.index`: index of the first occurrence of `a`. -/
def list_index (a : ℚ) : List ℚ → ℕ
  | [] => 0
  | x :: xs => if x = a then 0 else list_index a xs + 1

/-- `DER_list.index(min(DER_list))`: first index of the minimum. -/
def index_of_min (l : List ℚ) : ℕ := list_index (listMin l) l

/-- Embeds `dev_p_tuner` (lines 311-345): loop over `prange_p`, breaking
after the first iteration when `oracle_n_spkrs and backend == "kmeans"`,
then return `prange[DER_list.index(min(DER_list))]`. -/
def dev_p_tuner (oracle_n_spkrs : Bool) (backend : String) (der : ℚ → ℚ) : ℚ :=
  prange_p.getD
    (index_of_min
      ((tuner_runs der (oracle_n_spkrs && (backend == "kmeans")) prange_p).map Prod.snd)) 0

/-- Embeds `dev_threshold_tuner` (lines 348-381): loop over
`prange_threshold`, breaking after the first iteration when
`oracle_n_spkrs`, then return `prange[DER_list.index(min(DER_list))]`. -/
def dev_threshold_tuner (oracle_n_spkrs : Bool) (der : ℚ → ℚ) : ℚ :=
  prange_threshold.getD
    (index_of_min ((tuner_runs der oracle_n_spkrs prange_threshold).map Prod.snd)) 0

/-- Embeds `dev_nn_tuner` (lines 384-419): loop over `range(5, 15)`
collecting `[nn, DER]` pairs, breaking after the first iteration when
`oracle_n_spkrs and backend == "kmeans"`, then stably sort by DER and
return the first entry's neighbour count. -/
def dev_nn_tuner (oracle_n_spkrs : Bool) (backend : String) (der : ℕ → ℚ) : ℕ :=
  (((tuner_runs der (oracle_n_spkrs && (backend == "kmeans")) nn_range).mergeSort
      (fun a b => decide (a.2 ≤ b.2))).headD (0, 0)).1

/-! ### Lemmas about the tuner loop and the argmin selection -/

theorem tuner_runs_no_stop {α : Type} (der : α → ℚ) (l : List α) :
    tuner_runs der false l = l.map (fun p => (p, der p)) := by
  induction l with
  | nil => rfl
  | cons p ps ih => simp [tuner_runs, ih]

theorem tuner_runs_stop {α : Type} (der : α → ℚ) (p : α) (ps : List α) :
    tuner_runs der true (p :: ps) = [(p, der p)] := rfl

theorem foldl_min_le_init (xs : List ℚ) (a : ℚ) : xs.foldl min a ≤ a := by
  induction xs generalizing a with
  | nil => exact le_refl a
  | cons y ys ih => exact le_trans (ih (min a y)) (min_le_left a y)

theorem foldl_min_le_mem (xs : List ℚ) (a : ℚ) : ∀ x ∈ xs, xs.foldl min a ≤ x := by
  induction xs generalizing a with
  | nil => intro x hx; cases hx
  | cons y ys ih =>
      intro x hx
      rcases List.mem_cons.mp hx with h | h
      · subst h
        exact le_trans (foldl_min_le_init ys (min a x)) (min_le_right a x)
      · exact ih (min a y) x h

theorem listMin_le (l : List ℚ) : ∀ x ∈ l, listMin l ≤ x := by
  cases l with
  | nil => intro x hx; cases hx
  | cons a xs =>
      intro x hx
      rcases List.mem_cons.mp hx with h | h
      · subst h; exact foldl_min_le_init xs x
      · exact foldl_min_le_mem xs a x h

theorem foldl_min_mem (xs : List ℚ) (a : ℚ) : xs.foldl min a = a ∨ xs.foldl min a ∈ xs := by
  induction xs generalizing a with
  | nil => exact Or.inl rfl
  | cons y ys ih =>
      rcases ih (min a y) with h | h
      · rcases min_choice a y with hc | hc
        · exact Or.inl (by rw [List.foldl_cons, h, hc])
        · refine Or.inr ?_
          rw [List.foldl_cons, h, hc]
          exact List.mem_cons_self y ys
      · exact Or.inr (List.mem_cons_of_mem y h)

theorem listMin_mem (l : List ℚ) (h : l ≠ []) : listMin l ∈ l := by
  cases l with
  | nil => exact absurd rfl h
  | cons a xs =>
      rcases foldl_min_mem xs a with h1 | h1
      · rw [listMin, h1]; exact List.mem_cons_self a xs
      · exact List.mem_cons_of_mem a h1

theorem list_index_lt (a : ℚ) (l : List ℚ) (h : a ∈ l) : list_index a l < l.length := by
  induction l with
  | nil => cases h
  | cons x xs ih =>
      by_cases hx : x = a
      · simp [list_index, hx]
      · have ha : a ∈ xs := by
          rcases List.mem_cons.mp h with h1 | h1
          · exact absurd h1.symm hx
          · exact h1
        simp only [list_index, if_neg hx, List.length_cons]
        exact Nat.succ_lt_succ (ih ha)

theorem getD_list_index (a : ℚ) (l : List ℚ) (h : a ∈ l) :
    l.getD (list_index a l) 0 = a := by
  induction l with
  | nil => cases h
  | cons x xs ih =>
      by_cases hx : x = a
      · simp [list_index, hx]
      · have ha : a ∈ xs := by
          rcases List.mem_cons.mp h with h1 | h1
          · exact absurd h1.symm hx
          · exact h1
        simp only [list_index, if_neg hx]
        simpa using ih ha

theorem tuner_runs_stop_head {α : Type} (der : α → ℚ) (l : List α) (d : α) (h : l ≠ []) :
    tuner_runs der true l = [(l.headD d, der (l.headD d))] := by
  cases l with
  | nil => exact absurd rfl h
  | cons x xs => rfl

theorem index_of_min_singleton (x : ℚ) : index_of_min [x] = 0 := by
  simp [index_of_min, listMin, list_index]

/-- The 13 values of the p-value grid, written out. -/
theorem prange_p_eq :
    prange_p = [2/1000, 3/1000, 4/1000, 5/1000, 6/1000, 7/1000, 8/1000,
      9/1000, 10/1000, 11/1000, 12/1000, 13/1000, 14/1000] := by
  have hrange : List.range 13 = [0, 1, 2, 3, 4, 5, 6, 7, 8, 9, 10, 11, 12] := by decide
  rw [prange_p, hrange]
  norm_num

/-- The 10 values of the AHC threshold grid, written out. -/
theorem prange_threshold_eq :
    prange_threshold = [0, 1/10, 2/10, 3/10, 4/10, 5/10, 6/10, 7/10, 8/10, 9/10] := by
  have hrange : List.range 10 = [0, 1, 2, 3, 4, 5, 6, 7, 8, 9] := by decide
  rw [prange_threshold, hrange]
  norm_num

theorem nn_range_eq : nn_range = [5, 6, 7, 8, 9, 10, 11, 12, 13, 14] := by decide

/-- For a non-empty grid, `grid[DER_list.index(min(DER_list))]` with
`DER_list = grid.map der` is a grid value achieving the minimum DER. -/
theorem grid_argmin (grid : List ℚ) (der : ℚ → ℚ) (h : grid ≠ []) :
    grid.getD (index_of_min (grid.map der)) 0 ∈ grid ∧
    ∀ q ∈ grid, der (grid.getD (index_of_min (grid.map der)) 0) ≤ der q := by
  have hmapne : grid.map der ≠ [] := by
    intro hc
    exact h (List.map_eq_nil_iff.mp hc)
  have hm : listMin (grid.map der) ∈ grid.map der := listMin_mem _ hmapne
  have hi : index_of_min (grid.map der) < (grid.map der).length := list_index_lt _ _ hm
  have hig : index_of_min (grid.map der) < grid.length := by
    rw [← List.length_map grid der]
    exact hi
  have hgetD : grid.getD (index_of_min (grid.map der)) 0 = grid[index_of_min (grid.map der)] := by
    rw [List.getD_eq_getElem?_getD, List.getElem?_eq_getElem hig, Option.getD_some]
  have hdl : (grid.map der).getD (index_of_min (grid.map der)) 0 = listMin (grid.map der) :=
    getD_list_index _ _ hm
  have hdl2 : (grid.map der).getD (index_of_min (grid.map der)) 0
      = der grid[index_of_min (grid.map der)] := by
    rw [List.getD_eq_getElem?_getD, List.getElem?_eq_getElem hi, Option.getD_some]
    simp
  constructor
  · rw [hgetD]
    exact List.getElem_mem hig
  · intro q hq
    rw [hgetD, ← hdl2, hdl]
    exact listMin_le _ (der q) (List.mem_map_of_mem der hq)

/-- The head of the stable sort by DER is an entry of the list achieving the
minimum DER. -/
theorem mergeSort_head_min (l : List (ℕ × ℚ)) (h : l ≠ []) :
    (l.mergeSort (fun a b => decide (a.2 ≤ b.2))).headD (0, 0) ∈ l ∧
    ∀ b ∈ l, ((l.mergeSort (fun a b => decide (a.2 ≤ b.2))).headD (0, 0)).2 ≤ b.2 := by
  have hperm := List.mergeSort_perm l (fun a b => decide (a.2 ≤ b.2))
  have hsorted : List.Pairwise (fun a b : ℕ × ℚ => (decide (a.2 ≤ b.2)) = true)
      (l.mergeSort (fun a b => decide (a.2 ≤ b.2))) :=
    List.sorted_mergeSort
      (fun a b c hab hbc => by
        simp only [decide_eq_true_eq] at *
        exact le_trans hab hbc)
      (fun a b => by
        simp only [Bool.or_eq_true, decide_eq_true_eq]
        exact le_total a.2 b.2)
      l
  cases hms : l.mergeSort (fun a b => decide (a.2 ≤ b.2)) with
  | nil =>
      exfalso
      rw [hms] at hperm
      exact h (List.perm_nil.mp hperm.symm)
  | cons p t =>
      rw [hms] at hperm hsorted
      simp only [List.headD_cons]
      have hrel : ∀ b ∈ t, p.2 ≤ b.2 := by
        intro b hb
        exact decide_eq_true_eq.mp ((List.pairwise_cons.mp hsorted).1 b hb)
      constructor
      · exact hperm.mem_iff.mp (List.mem_cons_self p t)
      · intro b hb
        rcases List.mem_cons.mp (hperm.mem_iff.mpr hb) with h1 | h1
        · rw [h1]
        · exact hrel b h1

/-- C1 (amended): each dev-set tuner reruns the whole pipeline once per grid
value and returns a grid value achieving the minimum DER over the grid,
except under the early-stopping condition (`oracle_n_spkrs` together with the
kmeans backend for `dev_p_tuner` and `dev_nn_tuner`; `oracle_n_spkrs` alone
for `dev_threshold_tuner`), in which case only the first grid value is run
and returned (0.002, 0.0 and 5 respectively). -/
theorem tuners_grid_search (oracle_n_spkrs : Bool) (backend : String)
    (derp derthr : ℚ → ℚ) (dern : ℕ → ℚ) :
    ((oracle_n_spkrs && (backend == "kmeans")) = false →
      (tuner_runs derp (oracle_n_spkrs && (backend == "kmeans")) prange_p).map Prod.fst
          = prange_p ∧
      dev_p_tuner oracle_n_spkrs backend derp ∈ prange_p ∧
      ∀ q ∈ prange_p, derp (dev_p_tuner oracle_n_spkrs backend derp) ≤ derp q) ∧
    ((oracle_n_spkrs && (backend == "kmeans")) = true →
      (tuner_runs derp (oracle_n_spkrs && (backend == "kmeans")) prange_p).map Prod.fst
          = [2/1000] ∧
      dev_p_tuner oracle_n_spkrs backend derp = 2/1000) ∧
    (oracle_n_spkrs = false →
      (tuner_runs derthr oracle_n_spkrs prange_threshold).map Prod.fst = prange_threshold ∧
      dev_threshold_tuner oracle_n_spkrs derthr ∈ prange_threshold ∧
      ∀ q ∈ prange_threshold, derthr (dev_threshold_tuner oracle_n_spkrs derthr) ≤ derthr q) ∧
    (oracle_n_spkrs = true →
      (tuner_runs derthr oracle_n_spkrs prange_threshold).map Prod.fst = [0] ∧
      dev_threshold_tuner oracle_n_spkrs derthr = 0) ∧
    ((oracle_n_spkrs && (backend == "kmeans")) = false →
      (tuner_runs dern (oracle_n_spkrs && (backend == "kmeans")) nn_range).map Prod.fst
          = nn_range ∧
      dev_nn_tuner oracle_n_spkrs backend dern ∈ nn_range ∧
      ∀ q ∈ nn_range, dern (dev_nn_tuner oracle_n_spkrs backend dern) ≤ dern q) ∧
    ((oracle_n_spkrs && (backend == "kmeans")) = true →
      (tuner_runs dern (oracle_n_spkrs && (backend == "kmeans")) nn_range).map Prod.fst
          = [5] ∧
      dev_nn_tuner oracle_n_spkrs backend dern = 5) := by
  refine ⟨?_, ?_, ?_, ?_, ?_, ?_⟩
  · -- dev_p_tuner, full grid
    intro he
    have hval : dev_p_tuner oracle_n_spkrs backend derp
        = prange_p.getD (index_of_min (prange_p.map derp)) 0 := by
      unfold dev_p_tuner
      rw [he, tuner_runs_no_stop, List.map_map]
      rfl
    refine ⟨?_, ?_, ?_⟩
    · rw [he, tuner_runs_no_stop, List.map_map]
      exact List.map_id prange_p
    · rw [hval]
      exact (grid_argmin prange_p derp (by decide)).1
    · rw [hval]
      exact (grid_argmin prange_p derp (by decide)).2
  · -- dev_p_tuner, early stop
    intro he
    have hne : prange_p ≠ [] := by decide
    constructor
    · rw [he, tuner_runs_stop_head derp prange_p 0 hne]
      simp only [List.map_cons, List.map_nil]
      rw [prange_p_eq]
      rfl
    · unfold dev_p_tuner
      rw [he, tuner_runs_stop_head derp prange_p 0 hne]
      simp only [List.map_cons, List.map_nil, index_of_min_singleton]
      rw [prange_p_eq]
      rfl
  · -- dev_threshold_tuner, full grid
    intro he
    have hval : dev_threshold_tuner oracle_n_spkrs derthr
        = prange_threshold.getD (index_of_min (prange_threshold.map derthr)) 0 := by
      unfold dev_threshold_tuner
      rw [he, tuner_runs_no_stop, List.map_map]
      rfl
    refine ⟨?_, ?_, ?_⟩
    · rw [he, tuner_runs_no_stop, List.map_map]
      exact List.map_id prange_threshold
    · rw [hval]
      exact (grid_argmin prange_threshold derthr (by decide)).1
    · rw [hval]
      exact (grid_argmin prange_threshold derthr (by decide)).2
  · -- dev_threshold_tuner, early stop
    intro he
    have hne : prange_threshold ≠ [] := by decide
    constructor
    · rw [he, tuner_runs_stop_head derthr prange_threshold 0 hne]
      simp only [List.map_cons, List.map_nil]
      rw [prange_threshold_eq]
      rfl
    · unfold dev_threshold_tuner
      rw [he, tuner_runs_stop_head derthr prange_threshold 0 hne]
      simp only [List.map_cons, List.map_nil, index_of_min_singleton]
      rw [prange_threshold_eq]
      rfl
  · -- dev_nn_tuner, full grid
    intro he
    have hval : dev_nn_tuner oracle_n_spkrs backend dern
        = (((nn_range.map (fun n => (n, dern n))).mergeSort
              (fun a b => decide (a.2 ≤ b.2))).headD (0, 0)).1 := by
      unfold dev_nn_tuner
      rw [he, tuner_runs_no_stop]
    have hne : nn_range.map (fun n => (n, dern n)) ≠ [] := by
      intro hc
      have h2 : nn_range = [] := List.map_eq_nil_iff.mp hc
      exact absurd h2 (by decide)
    obtain ⟨hmem, hmin⟩ := mergeSort_head_min (nn_range.map (fun n => (n, dern n))) hne
    obtain ⟨n0, hn0, heq⟩ := List.mem_map.mp hmem
    refine ⟨?_, ?_, ?_⟩
    · rw [he, tuner_runs_no_stop, List.map_map]
      exact List.map_id nn_range
    · rw [hval, ← heq]
      exact hn0
    · intro q hq
      have hq2 : (q, dern q) ∈ nn_range.map (fun n => (n, dern n)) :=
        List.mem_map_of_mem _ hq
      have h3 := hmin (q, dern q) hq2
      rw [← heq] at h3
      rw [hval, ← heq]
      exact h3
  · -- dev_nn_tuner, early stop
    intro he
    have hne : nn_range ≠ [] := by decide
    constructor
    · rw [he, tuner_runs_stop_head dern nn_range 0 hne]
      simp only [List.map_cons, List.map_nil]
      rw [nn_range_eq]
      rfl
    · unfold dev_nn_tuner
      rw [he, tuner_runs_stop_head dern nn_range 0 hne]
      have h5 : nn_range.headD 0 = 5 := by decide
      rw [h5]
      have hsingle : ([((5 : ℕ), dern 5)]).mergeSort (fun a b => decide (a.2 ≤ b.2))
          = [((5 : ℕ), dern 5)] :=
        List.perm_singleton.mp (List.mergeSort_perm _ _)
      rw [hsingle]
      rfl

/-- C1 counterexample: with `oracle_n_spkrs` true and the kmeans backend,
`dev_p_tuner` runs the pipeline for only the first of the 13 grid values and
returns 0.002, even though grid value 0.007 achieves a strictly smaller DER. -/
theorem tuners_grid_search_cex :
    prange_p.length = 13 ∧
    (tuner_runs (fun p : ℚ => if p = 7/1000 then (0 : ℚ) else 1)
        (true && ("kmeans" == "kmeans")) prange_p).length = 1 ∧
    dev_p_tuner true "kmeans" (fun p : ℚ => if p = 7/1000 then (0 : ℚ) else 1) = 2/1000 ∧
    (7 : ℚ)/1000 ∈ prange_p ∧
    (fun p : ℚ => if p = 7/1000 then (0 : ℚ) else 1) (7/1000)
      < (fun p : ℚ => if p = 7/1000 then (0 : ℚ) else 1)
          (dev_p_tuner true "kmeans" (fun p : ℚ => if p = 7/1000 then (0 : ℚ) else 1)) := by
  have hb : (true && ("kmeans" == "kmeans")) = true := rfl
  have hne : prange_p ≠ [] := by decide
  have hval : dev_p_tuner true "kmeans" (fun p : ℚ => if p = 7/1000 then (0 : ℚ) else 1)
      = 2/1000 := by
    unfold dev_p_tuner
    rw [hb, tuner_runs_stop_head _ prange_p 0 hne]
    simp only [List.map_cons, List.map_nil, index_of_min_singleton]
    rw [prange_p_eq]
    rfl
  refine ⟨?_, ?_, hval, ?_, ?_⟩
  · rw [prange_p_eq]
    rfl
  · rw [hb, tuner_runs_stop_head _ prange_p 0 hne]
    rfl
  · rw [prange_p_eq]
    simp
  · rw [hval]
    norm_num

theorem tuners_grid_search_witness :
    dev_p_tuner false "SC" (fun _ => 1) ∈ prange_p :=
  ((tuners_grid_search false "SC" (fun _ => 1) (fun _ => 1) (fun _ => 1)).1 rfl).2.1

/-! ## csv_to_json (experiment.py, lines 142-171)

For each CSV row, `row["wav"].rsplit(".", 2)[0]` drops the last two
'.'-separated segments of the wav path, `"." + array_type + "-"` is appended,
and the 8 file names are completed with `str(i + 1).zfill(2) + ".wav"` for
`i in range(8)`.  The rows are inserted into a Python dict keyed by
`row["ID"]` (a later row with the same ID overwrites the earlier entry,
keeping its position), and the dict is dumped as JSON.  `float(...)` and
`int(...)` parsing is abstracted as `parseFloat` / `parseInt`. -/

structure CsvRow where
  ID : String
  wav : Chars
  duration : String
  start : String
  stop : String
deriving DecidableEq

structure WavEntry where
  files : List Chars
  duration : ℚ
  start : ℤ
  stop : ℤ
deriving DecidableEq

/-- One step of Python's `rsplit(".", 1)`: drop the last '.' and everything
after it; a string with no '.' is unchanged.  `rsplit(".", 2)[0]` is two
applications of this. -/
def dropLastSeg (s : Chars) : Chars :=
  if '.' ∈ s then ((s.reverse.dropWhile (fun c => c != '.')).drop 1).reverse else s

/-- Python's `str(n).zfill(2)`. -/
def pyZfill2 (n : ℕ) : Chars :=
  if (Nat.toDigits 10 n).length < 2 then '0' :: Nat.toDigits 10 n else Nat.toDigits 10 n

/-- The JSON value built for one CSV row (lines 154-168). -/
def rowEntry (parseFloat : String → ℚ) (parseInt : String → ℤ) (array_type : Chars)
    (row : CsvRow) : WavEntry :=
  { files := (List.range 8).map
      (fun i => dropLastSeg (dropLastSeg row.wav) ++ ('.' :: array_type) ++ ['-']
        ++ pyZfill2 (i + 1) ++ ".wav".toList)
    duration := parseFloat row.duration
    start := parseInt row.start
    stop := parseInt row.stop }

/-- Python dict assignment `d[k] = v` on an insertion-ordered association
list: an existing key keeps its position and gets the new value, a new key is
appended. -/
def dictInsert (d : List (String × WavEntry)) (k : String) (v : WavEntry) :
    List (String × WavEntry) :=
  if d.any (fun kv => kv.1 == k) then d.map (fun kv => if kv.1 = k then (k, v) else kv)
  else d ++ [(k, v)]

/-- Embeds `csv_to_json`: the insertion-ordered dict written as JSON. -/
def csv_to_json (parseFloat : String → ℚ) (parseInt : String → ℤ) (array_type : Chars)
    (rows : List CsvRow) : List (String × WavEntry) :=
  rows.foldl (fun d row => dictInsert d row.ID (rowEntry parseFloat parseInt array_type row)) []

theorem dictInsert_of_new_key (d : List (String × WavEntry)) (k : String) (v : WavEntry)
    (h : ∀ kv ∈ d, kv.1 ≠ k) : dictInsert d k v = d ++ [(k, v)] := by
  unfold dictInsert
  rw [if_neg]
  intro hc
  obtain ⟨kv, hkv, hbeq⟩ := List.any_eq_true.mp hc
  exact h kv hkv (by simpa using hbeq)

theorem csv_to_json_foldl (parseFloat : String → ℚ) (parseInt : String → ℤ)
    (array_type : Chars) (rows : List CsvRow) (d : List (String × WavEntry))
    (hd : ∀ r ∈ rows, ∀ kv ∈ d, kv.1 ≠ r.ID) (hnd : (rows.map CsvRow.ID).Nodup) :
    rows.foldl (fun d row => dictInsert d row.ID (rowEntry parseFloat parseInt array_type row)) d
      = d ++ rows.map (fun r => (r.ID, rowEntry parseFloat parseInt array_type r)) := by
  induction rows generalizing d with
  | nil => simp
  | cons r rs ih =>
      rw [List.foldl_cons,
        dictInsert_of_new_key d r.ID _ (hd r (List.mem_cons_self r rs))]
      rw [List.map_cons] at hnd
      have hnotin : r.ID ∉ rs.map CsvRow.ID := (List.nodup_cons.mp hnd).1
      have hd2 : ∀ x ∈ rs, ∀ kv ∈ d ++ [(r.ID, rowEntry parseFloat parseInt array_type r)],
          kv.1 ≠ x.ID := by
        intro x hx kv hkv
        rcases List.mem_append.mp hkv with h1 | h1
        · exact hd x (List.mem_cons_of_mem r hx) kv h1
        · have hkv2 : kv = (r.ID, rowEntry parseFloat parseInt array_type r) := by
            simpa using h1
          rw [hkv2]
          intro hc
          have hrx : r.ID = x.ID := hc
          rw [hrx] at hnotin
          exact hnotin (List.mem_map_of_mem CsvRow.ID hx)
      have hnd2 : (rs.map CsvRow.ID).Nodup := (List.nodup_cons.mp hnd).2
      rw [ih _ hd2 hnd2, List.append_assoc]
      simp

/-- Any string whose final segment is '.'-free loses exactly that segment
under `dropLastSeg`. -/
theorem dropLastSeg_append (a e : Chars) (he : '.' ∉ e) :
    dropLastSeg (a ++ '.' :: e) = a := by
  have hmem : '.' ∈ a ++ '.' :: e := by simp
  have hall : ∀ x ∈ e.reverse, (x != '.') = true := by
    intro x hx
    have : x ∈ e := List.mem_reverse.mp hx
    simp only [bne_iff_ne, ne_eq]
    intro hc
    exact he (hc ▸ this)
  rw [dropLastSeg, if_pos hmem]
  rw [List.reverse_append, List.reverse_cons]
  rw [List.append_assoc, List.singleton_append]
  rw [List.dropWhile_append]
  have hde : e.reverse.dropWhile (fun c => c != '.') = [] := by
    rw [List.dropWhile_eq_nil_iff]
    intro x hx
    exact hall x hx
  rw [hde]
  simp only [List.isEmpty_nil, if_pos rfl]
  rw [List.dropWhile_cons]
  norm_num

/-- C4 (amended): for CSV rows with pairwise distinct IDs, `csv_to_json`
produces exactly one entry per row, keyed by that row's ID; each entry's
'wav' value holds exactly 8 file paths obtained by replacing the wav path's
last two '.'-separated extensions by `"." ++ array_type ++ "-NN.wav"` for NN
in 01..08, together with the parsed duration, start and stop.  With
duplicate IDs the dict keeps one entry per distinct ID instead. -/
theorem csv_to_json_spec (parseFloat : String → ℚ) (parseInt : String → ℤ)
    (array_type : Chars) (rows : List CsvRow) :
    ((rows.map CsvRow.ID).Nodup →
      csv_to_json parseFloat parseInt array_type rows
        = rows.map (fun r => (r.ID, rowEntry parseFloat parseInt array_type r))) ∧
    (∀ r : CsvRow, ∀ base e1 e2 : Chars, '.' ∉ e1 → '.' ∉ e2 →
      r.wav = base ++ '.' :: e1 ++ '.' :: e2 →
      (rowEntry parseFloat parseInt array_type r).files
        = [base ++ '.' :: array_type ++ "-01.wav".toList,
           base ++ '.' :: array_type ++ "-02.wav".toList,
           base ++ '.' :: array_type ++ "-03.wav".toList,
           base ++ '.' :: array_type ++ "-04.wav".toList,
           base ++ '.' :: array_type ++ "-05.wav".toList,
           base ++ '.' :: array_type ++ "-06.wav".toList,
           base ++ '.' :: array_type ++ "-07.wav".toList,
           base ++ '.' :: array_type ++ "-08.wav".toList]) ∧
    (∀ r : CsvRow,
      (rowEntry parseFloat parseInt array_type r).files.length = 8 ∧
      (rowEntry parseFloat parseInt array_type r).duration = parseFloat r.duration ∧
      (rowEntry parseFloat parseInt array_type r).start = parseInt r.start ∧
      (rowEntry parseFloat parseInt array_type r).stop = parseInt r.stop) := by
  refine ⟨?_, ?_, ?_⟩
  · intro hnd
    unfold csv_to_json
    rw [csv_to_json_foldl parseFloat parseInt array_type rows []
      (by intro r hr kv hkv; cases hkv) hnd]
    simp
  · intro r base e1 e2 he1 he2 hwav
    have hbase : dropLastSeg (dropLastSeg r.wav) = base := by
      rw [hwav, dropLastSeg_append _ e2 he2, dropLastSeg_append _ e1 he1]
    have hr8 : List.range 8 = [0, 1, 2, 3, 4, 5, 6, 7] := by decide
    have h1 : ("-01.wav".toList : Chars) = ['-'] ++ pyZfill2 (0 + 1) ++ ".wav".toList := by decide
    have h2 : ("-02.wav".toList : Chars) = ['-'] ++ pyZfill2 (1 + 1) ++ ".wav".toList := by decide
    have h3 : ("-03.wav".toList : Chars) = ['-'] ++ pyZfill2 (2 + 1) ++ ".wav".toList := by decide
    have h4 : ("-04.wav".toList : Chars) = ['-'] ++ pyZfill2 (3 + 1) ++ ".wav".toList := by decide
    have h5 : ("-05.wav".toList : Chars) = ['-'] ++ pyZfill2 (4 + 1) ++ ".wav".toList := by decide
    have h6 : ("-06.wav".toList : Chars) = ['-'] ++ pyZfill2 (5 + 1) ++ ".wav".toList := by decide
    have h7 : ("-07.wav".toList : Chars) = ['-'] ++ pyZfill2 (6 + 1) ++ ".wav".toList := by decide
    have h8 : ("-08.wav".toList : Chars) = ['-'] ++ pyZfill2 (7 + 1) ++ ".wav".toList := by decide
    simp only [rowEntry]
    rw [hbase, hr8]
    rw [h1, h2, h3, h4, h5, h6, h7, h8]
    simp [List.append_assoc]
  · intro r
    refine ⟨?_, rfl, rfl, rfl⟩
    simp [rowEntry]

/-- C4 counterexample: two CSV rows sharing the ID "seg1" yield a JSON object
with a single entry, not one entry per CSV row. -/
theorem csv_to_json_cex :
    ([{ ID := "seg1", wav := "a.x.y".toList, duration := "1.0",
        start := "0", stop := "16000" },
      { ID := "seg1", wav := "b.x.y".toList, duration := "2.0",
        start := "0", stop := "16000" }] : List CsvRow).length = 2 ∧
    (csv_to_json (fun _ => (0 : ℚ)) (fun _ => (0 : ℤ)) "Array1".toList
      [{ ID := "seg1", wav := "a.x.y".toList, duration := "1.0",
         start := "0", stop := "16000" },
       { ID := "seg1", wav := "b.x.y".toList, duration := "2.0",
         start := "0", stop := "16000" }]).length = 1 := by
  constructor
  · rfl
  · rfl

theorem csv_to_json_spec_witness :
    csv_to_json (fun _ => (0 : ℚ)) (fun _ => (0 : ℤ)) "Array1".toList
        [{ ID := "seg1", wav := "a.x.y".toList, duration := "1.0",
           start := "0", stop := "16000" }]
      = [("seg1", rowEntry (fun _ => (0 : ℚ)) (fun _ => (0 : ℤ)) "Array1".toList
          { ID := "seg1", wav := "a.x.y".toList, duration := "1.0",
            start := "0", stop := "16000" })] :=
  (csv_to_json_spec (fun _ => (0 : ℚ)) (fun _ => (0 : ℤ)) "Array1".toList
    [{ ID := "seg1", wav := "a.x.y".toList, duration := "1.0",
       start := "0", stop := "16000" }]).1 (by simp)

/-! ## The main script of experiment.py (lines 551-717)

The `__main__` block parses the command line, loads the hyperparameters
file, prepares the AMI data, creates the experiment directories, checks the
three important directories, tunes on the dev set, then diarizes and scores
the dev and eval splits and writes the per-file DER reports.  The sequence
of these actions is recorded as a trace of events; the external calls that
produce DERs are abstracted as before. -/

/-- Modelled from the spec: `sb.core.parse_arguments` is framework code not
under src/; per the spec, the script's command-line entry point is a YAML
hyperparameters file path, so `parse_arguments(sys.argv[1:])` returns that
first argument as the params file together with the remaining arguments as
overrides. -/
def parse_arguments (args : List String) : String × List String :=
  (args.headD "", args.tail)

structure DiarParams where
  ref_rttm_dir : String
  sys_rttm_dir : String
  der_dir : String
  affinity : String
  backend : String
  oracle_n_spkrs : Bool
  max_num_spkrs : ℕ
deriving DecidableEq

inductive DiarEvent where
  | loadParams (params_file : String)
  | prepareAmi
  | createExpDir
  | checkDirsEvent
  | diarizeDataset (split_type : String) (out_file : String)
  | scoreDER (ref_rttm sys_rttm : String)
  | writeDersFile (ref_rttm out_der_file : String)
deriving DecidableEq

def ospath_join (a b : String) : String := a ++ "/" ++ b

/-- The concatenated system RTTM produced by `diarize_dataset` for a split:
`os.path.join(sys_rttm_dir, "AMI_" + split_type) + "/sys_output.rttm"`. -/
def concateOut (p : DiarParams) (split_type : String) : String :=
  ospath_join p.sys_rttm_dir ("AMI_" ++ split_type) ++ "/sys_output.rttm"

/-- The ground-truth reference file for a split:
`ref_rttm_dir + "/fullref_ami_" + split_type + ".rttm"`. -/
def fullrefFile (p : DiarParams) (split_type : String) : String :=
  ospath_join p.ref_rttm_dir ("fullref_ami_" ++ split_type ++ ".rttm")

/-- One tuner iteration diarizes the whole dev set and scores it against the
dev reference; `k` iterations were run by the loop. -/
def tunerEvents (p : DiarParams) (k : ℕ) : List DiarEvent :=
  (List.range k).flatMap
    (fun _ => [DiarEvent.diarizeDataset "dev" (concateOut p "dev"),
               DiarEvent.scoreDER (fullrefFile p "dev") (concateOut p "dev")])

/-- The tuning phase of `__main__` (lines 613-643): `dev_nn_tuner` when the
affinity is nn; then `dev_p_tuner` for cos affinity with the SC or kmeans
backend, else `dev_threshold_tuner` for the AHC backend, else (for
non-oracle runs) the work-in-progress `dev_tuner` over
`range(1, max_num_spkrs + 1)`. -/
def tuningEvents (p : DiarParams) (derp derthr : ℚ → ℚ) (dern : ℕ → ℚ) : List DiarEvent :=
  (if p.affinity == "nn" then
    tunerEvents p (tuner_runs dern (p.oracle_n_spkrs && (p.backend == "kmeans")) nn_range).length
  else [])
  ++ (if p.affinity == "cos" && (p.backend == "SC" || p.backend == "kmeans") then
        tunerEvents p
          (tuner_runs derp (p.oracle_n_spkrs && (p.backend == "kmeans")) prange_p).length
      else if p.backend == "AHC" then
        tunerEvents p (tuner_runs derthr p.oracle_n_spkrs prange_threshold).length
      else if p.oracle_n_spkrs then []
      else tunerEvents p p.max_num_spkrs)

/-- The tag used for the per-file DER reports (lines 710-711). -/
def derTag (p : DiarParams) : String :=
  (if p.oracle_n_spkrs then "oracle" else "est") ++ "_" ++ p.affinity ++ ".txt"

/-- Embeds the event sequence of the `__main__` block. -/
def mainTrace (argv : List String) (p : DiarParams) (derp derthr : ℚ → ℚ)
    (dern : ℕ → ℚ) : List DiarEvent :=
  DiarEvent.loadParams (parse_arguments argv).1
    :: DiarEvent.prepareAmi
    :: DiarEvent.createExpDir
    :: DiarEvent.checkDirsEvent
    :: (tuningEvents p derp derthr dern
        ++ [DiarEvent.diarizeDataset "dev" (concateOut p "dev"),
            DiarEvent.scoreDER (fullrefFile p "dev") (concateOut p "dev"),
            DiarEvent.diarizeDataset "eval" (concateOut p "eval"),
            DiarEvent.scoreDER (fullrefFile p "eval") (concateOut p "eval"),
            DiarEvent.writeDersFile (fullrefFile p "dev")
              (ospath_join p.der_dir ("dev_DER_" ++ derTag p)),
            DiarEvent.writeDersFile (fullrefFile p "eval")
              (ospath_join p.der_dir ("eval_DER_" ++ derTag p))])

/-- C5: for each split s in dev, eval, the script diarizes the split and
immediately afterwards scores the concatenated system RTTM of that split
against `fullref_ami_<s>.rttm` with DER, for every configuration. -/
theorem der_scoring_per_split (argv : List String) (p : DiarParams)
    (derp derthr : ℚ → ℚ) (dern : ℕ → ℚ) :
    ∃ pre post, mainTrace argv p derp derthr dern
        = pre
          ++ [DiarEvent.diarizeDataset "dev" (concateOut p "dev"),
              DiarEvent.scoreDER (ospath_join p.ref_rttm_dir "fullref_ami_dev.rttm")
                (concateOut p "dev"),
              DiarEvent.diarizeDataset "eval" (concateOut p "eval"),
              DiarEvent.scoreDER (ospath_join p.ref_rttm_dir "fullref_ami_eval.rttm")
                (concateOut p "eval")]
          ++ post := by
  refine ⟨DiarEvent.loadParams (parse_arguments argv).1
    :: DiarEvent.prepareAmi
    :: DiarEvent.createExpDir
    :: DiarEvent.checkDirsEvent
    :: tuningEvents p derp derthr dern,
    [DiarEvent.writeDersFile (fullrefFile p "dev")
        (ospath_join p.der_dir ("dev_DER_" ++ derTag p)),
      DiarEvent.writeDersFile (fullrefFile p "eval")
        (ospath_join p.der_dir ("eval_DER_" ++ derTag p))], ?_⟩
  have hdev : fullrefFile p "dev" = ospath_join p.ref_rttm_dir "fullref_ami_dev.rttm" := rfl
  have heval : fullrefFile p "eval" = ospath_join p.ref_rttm_dir "fullref_ami_eval.rttm" := rfl
  rw [← hdev, ← heval]
  simp [mainTrace]

/-- C6: the script's entry point takes the hyperparameters YAML file path as
its first command-line argument, and loading the parameters from that file
is the first event of the trace, before any processing. -/
theorem params_loaded_first (argv : List String) (p : DiarParams)
    (derp derthr : ℚ → ℚ) (dern : ℕ → ℚ) :
    ∃ rest, mainTrace argv p derp derthr dern = DiarEvent.loadParams (argv.headD "") :: rest ∧
      (parse_arguments argv).1 = argv.headD "" := by
  exact ⟨_, rfl, rfl⟩
